import Mathlib

/-!
Verification of the Planetoid Entity Component System (`PECS.hpp`).

The C++ header defines two data structures:

* `SparseSet<T>` — a fixed-capacity component pool with a sparse array
  (`std::vector<EntityID>` of length `MaxEntities`, initialised to the
  sentinel `MaxEntities - 1`) and a dense array of `(entity, data)` pairs.
* `ECSInstance` — the registry: a high-water mark `m_NextEntity`, a free
  list `m_FreeEntities` (a `std::vector` used LIFO via `back`/`pop_back`),
  and a map from component type to pool.

Embedding choices:

* `EntityID` / `size_t` values are modelled as `Nat`; every arithmetic the
  code performs on them stays far below any overflow boundary under the
  preconditions the code asserts, and the quantities are sizes/indices.
* The sparse vector is modelled as a total function `Nat → Nat`; the code
  only ever reads or writes indices `< capacity` (asserted), so the values
  of the function outside that range are never consulted by the theorems.
* `PECS_ASSERT` on an argument (`entity < m_MaxEntities`) is modelled as a
  hypothesis of the theorems; the capacity assertion inside `CreateEntity`
  and the lookup assertions inside `GetComponent` are modelled by an
  `Option` result (`none` = the assertion fires), because claims speak
  about those failures.
* The `std::type_index`-keyed `unordered_map` of pools is modelled as an
  association list `List (Nat × Pool V)` keyed by `Nat` (one key per
  component type); all pools store the same value type `V`, which loses
  nothing for the claims at hand (each claim fixes a single component
  type, and distinct types are distinguished by their key).
-/

namespace PECS

/-- `SparseSet<T>` (PECS.hpp lines 21-103): `capacity` is `m_MaxEntities`,
`sparse` models `m_SparseSet` (length-`capacity` vector, initialised to
`capacity - 1`), `dense` models `m_DenseSet` (vector of
`{ EntityID entity; T data; }`). -/
structure Pool (V : Type) where
  capacity : Nat
  sparse : Nat → Nat
  dense : List (Nat × V)

/-- The constructor `SparseSet(MaxEntities)`: sparse vector filled with
`MaxEntities - 1`, empty dense vector. -/
def Pool.init (V : Type) (maxEntities : Nat) : Pool V :=
  { capacity := maxEntities, sparse := fun _ => maxEntities - 1, dense := [] }

/-- `SparseSet::Has`: `m_SparseSet[entity] != m_MaxEntities - 1`. -/
def Pool.Has {V : Type} (p : Pool V) (e : Nat) : Bool :=
  p.sparse e != p.capacity - 1

/-- The expression `m_DenseSet[m_SparseSet[entity]].data` (the body of
`SparseSet::Get` and of the early-return branch of `SparseSet::Add`);
`none` models an out-of-bounds dense read. -/
def Pool.getVal {V : Type} (p : Pool V) (e : Nat) : Option V :=
  (p.dense[p.sparse e]?).map Prod.snd

/-- `SparseSet::Get`: asserts `Has(entity)` and returns
`m_DenseSet[m_SparseSet[entity]].data`; `none` models the assertion
firing. -/
def Pool.Get {V : Type} (p : Pool V) (e : Nat) : Option V :=
  if p.Has e then p.getVal e else none

/-- `SparseSet::Add`: if `Has(entity)`, return the existing datum and
leave the pool untouched; otherwise push `(entity, v)` onto the dense
vector and set `m_SparseSet[entity] = m_DenseSet.size() - 1` (the index of
the new entry, i.e. the old dense length). Returns the stored value
together with the new pool state. -/
def Pool.Add {V : Type} (p : Pool V) (e : Nat) (v : V) : Option V × Pool V :=
  if p.Has e then
    (p.getVal e, p)
  else
    (some v,
      { p with
        dense := p.dense ++ [(e, v)]
        sparse := fun i => if i = e then p.dense.length else p.sparse i })

/-- `SparseSet::Remove`: if `!Has(entity)` return `false` unchanged;
otherwise move the last dense entry into the removed slot
(`m_DenseSet[index] = move(lastEntry)`), set
`m_SparseSet[lastEntry.entity] = index`, pop the last dense entry, and
finally set `m_SparseSet[entity] = m_MaxEntities - 1`. The final sparse
state reflects the write order of the C++ (the sentinel write to
`sparse[entity]` comes last and wins). -/
def Pool.Remove {V : Type} [Inhabited V] (p : Pool V) (e : Nat) : Bool × Pool V :=
  if p.Has e then
    let index := p.sparse e
    let last := p.dense.length - 1
    let lastEntry := p.dense.getD last default
    (true,
      { p with
        dense := (p.dense.set index lastEntry).dropLast
        sparse := fun i =>
          if i = e then p.capacity - 1
          else if i = lastEntry.1 then index
          else p.sparse i })
  else (false, p)

/-- `ECSInstance` (PECS.hpp lines 125-264): `maxEntities` is
`m_MaxEntities`, `nextEntity` is `m_NextEntity` (starts at 0),
`freeEntities` is `m_FreeEntities` in vector order (`push_back` appends,
`back`/`pop_back` act on the end), `pools` is `m_ComponentPools` as an
association list keyed by component-type key. -/
structure Registry (V : Type) where
  maxEntities : Nat
  nextEntity : Nat
  freeEntities : List Nat
  pools : List (Nat × Pool V)

/-- The constructor `ECSInstance(MaxEntities)`. -/
def Registry.init (V : Type) (maxEntities : Nat) : Registry V :=
  { maxEntities := maxEntities, nextEntity := 0, freeEntities := [], pools := [] }

/-- `ECSInstance::CreateEntity`: if the free list is empty, assert
`m_NextEntity + 1 < m_MaxEntities` (modelled by `none` on failure) and
return `m_NextEntity++`; otherwise pop and return the back of the free
list. -/
def Registry.CreateEntity {V : Type} (r : Registry V) : Option (Nat × Registry V) :=
  if r.freeEntities.isEmpty then
    if r.nextEntity + 1 < r.maxEntities then
      some (r.nextEntity, { r with nextEntity := r.nextEntity + 1 })
    else none
  else
    some (r.freeEntities.getLastD 0,
      { r with freeEntities := r.freeEntities.dropLast })

/-- `ECSInstance::DeleteEntity`: push the entity onto the free list, then
call `RemoveEntity` (i.e. `SparseSet::Remove`) on every existing pool.
The range assertion `entity < m_MaxEntities` is a hypothesis of the
theorems. -/
def Registry.DeleteEntity {V : Type} [Inhabited V] (r : Registry V) (e : Nat) :
    Registry V :=
  { r with
    freeEntities := r.freeEntities ++ [e]
    pools := r.pools.map (fun kp => (kp.1, (kp.2.Remove e).2)) }

/-- `ECSInstance::TryGetPool<T>`: look up the pool for type key `k`,
without creating one. -/
def Registry.lookupPool {V : Type} (r : Registry V) (k : Nat) : Option (Pool V) :=
  (r.pools.find? (fun kp => kp.1 == k)).map Prod.snd

/-- Writing back a pool that was obtained by reference: replace the entry
for key `k` in the pool map. -/
def Registry.setPool {V : Type} (r : Registry V) (k : Nat) (p : Pool V) : Registry V :=
  { r with pools := r.pools.map (fun kp => if kp.1 = k then (k, p) else kp) }

/-- `ECSInstance::AddComponent<T>`: `GetOrCreatePool<T>().Add(entity, args)`.
If the pool exists, `Add` mutates it in place (modelled by `setPool`);
otherwise a fresh pool sized to `m_MaxEntities` is created, added to the
map, and `Add` mutates it. -/
def Registry.AddComponent {V : Type} (r : Registry V) (k e : Nat) (v : V) :
    Option V × Registry V :=
  match r.lookupPool k with
  | some p =>
      let res := p.Add e v
      (res.1, r.setPool k res.2)
  | none =>
      let res := (Pool.init V r.maxEntities).Add e v
      (res.1, { r with pools := r.pools ++ [(k, res.2)] })

/-- `ECSInstance::GetComponent<T>`: asserts that the pool exists and that
the entity has the component (both modelled by `none`), then returns
`pool->Get(entity)`. -/
def Registry.GetComponent {V : Type} (r : Registry V) (k e : Nat) : Option V :=
  match r.lookupPool k with
  | some p => p.Get e
  | none => none

/-- `ECSInstance::RemoveComponent<T>`: `false` if no pool for the key
exists, otherwise delegate to the pool's `Remove`. -/
def Registry.RemoveComponent {V : Type} [Inhabited V] (r : Registry V) (k e : Nat) :
    Bool × Registry V :=
  match r.lookupPool k with
  | some p =>
      let res := p.Remove e
      (res.1, r.setPool k res.2)
  | none => (false, r)

/-- `ECSInstance::HasComponent<T>`: `false` if no pool for the key exists,
otherwise the pool's `Has`. -/
def Registry.HasComponent {V : Type} (r : Registry V) (k e : Nat) : Bool :=
  match r.lookupPool k with
  | some p => p.Has e
  | none => false

/-- A call against a single pool: `Add(e, v)` or `Remove(e)`. -/
inductive PoolOp (V : Type) where
  | add (e : Nat) (v : V)
  | remove (e : Nat)

/-- Apply one pool call, keeping only the state. -/
def Pool.applyOp {V : Type} [Inhabited V] (p : Pool V) : PoolOp V → Pool V
  | .add e v => (p.Add e v).2
  | .remove e => (p.Remove e).2

/-- Apply a sequence of pool calls in order. -/
def Pool.applyOps {V : Type} [Inhabited V] (p : Pool V) : List (PoolOp V) → Pool V
  | [] => p
  | op :: t => (p.applyOp op).applyOps t

/-- Well-formedness of the pool map that `std::unordered_map` provides for
free: each component-type key occurs at most once. Every registry
reachable through the API satisfies it (`AddComponent` only appends a key
that `find` did not locate). -/
def Registry.keysNodup {V : Type} (r : Registry V) : Prop :=
  (r.pools.map Prod.fst).Nodup

variable {V : Type}

theorem Pool.Has_eq_true_iff {p : Pool V} {e : Nat} :
    p.Has e = true ↔ p.sparse e ≠ p.capacity - 1 := by
  simp [Pool.Has]

theorem Pool.Has_eq_false_iff {p : Pool V} {e : Nat} :
    p.Has e = false ↔ p.sparse e = p.capacity - 1 := by
  simp [Pool.Has]

theorem Pool.Remove_Has_self [Inhabited V] (p : Pool V) (e : Nat) :
    ((p.Remove e).2).Has e = false := by
  unfold Pool.Remove
  split
  · simp [Pool.Has]
  · next h => simpa [Pool.Has_eq_false_iff] using (Pool.Has_eq_false_iff).mp (by
      cases hb : p.Has e with
      | true => exact absurd hb h
      | false => rfl)

theorem map_set_eq_of_find {l : List (Nat × Pool V)} {k : Nat} {p : Pool V}
    (hnd : (l.map Prod.fst).Nodup)
    (hf : l.find? (fun kp => kp.1 == k) = some (k, p)) :
    l.map (fun kp => if kp.1 = k then (k, p) else kp) = l := by
  induction l with
  | nil => simp at hf
  | cons hd t ih =>
    rw [List.find?_cons] at hf
    have hnd2 : (hd.1 :: t.map Prod.fst).Nodup := by simpa using hnd
    have hnd' := List.nodup_cons.mp hnd2
    rcases hb : (hd.1 == k) with _ | _
    · rw [hb] at hf
      have hne : hd.1 ≠ k := by simpa using hb
      simp only [List.map_cons, if_neg hne, ih hnd'.2 hf]
    · rw [hb] at hf
      have hhd : hd = (k, p) := by simpa using hf
      have hk : hd.1 = k := by rw [hhd]
      have hnotin : ∀ x ∈ t, x.1 ≠ k := by
        intro x hx hxk
        exact hnd'.1 (by rw [hk, ← hxk]; exact List.mem_map_of_mem Prod.fst hx)
      have ht : t.map (fun kp => if kp.1 = k then (k, p) else kp) = t.map id :=
        List.map_congr_left (fun x hx => by simp [if_neg (hnotin x hx)])
      rw [List.map_cons, if_pos hk, ht, List.map_id, ← hhd]

theorem Registry.setPool_self (r : Registry V) (k : Nat) (p : Pool V)
    (hnd : r.keysNodup) (hl : r.lookupPool k = some p) : r.setPool k p = r := by
  unfold Registry.lookupPool at hl
  obtain ⟨kp0, hf, hsnd⟩ := Option.map_eq_some'.mp hl
  have hfst : kp0.1 = k := by simpa using List.find?_some hf
  have hkp0 : kp0 = (k, p) := by
    cases kp0
    simp_all
  rw [hkp0] at hf
  unfold Registry.setPool
  have := map_set_eq_of_find hnd hf
  cases r
  simp_all

/-- C8: removing an absent component is a no-op. If `Has(e)` is false the
pool's `Remove` returns `false` and leaves the sparse and dense arrays
unchanged; and at the registry level `RemoveComponent` returns `false`
without creating a pool or mutating any state whenever no pool for the
key exists or the entity is absent from it. -/
theorem remove_absent_noop [Inhabited V] (p : Pool V) (r : Registry V)
    (k e₁ e₂ : Nat) (he₁ : e₁ < p.capacity) (he₂ : e₂ < r.maxEntities)
    (hp : p.Has e₁ = false) (hnd : r.keysNodup)
    (hr : ∀ q, r.lookupPool k = some q → q.Has e₂ = false) :
    p.Remove e₁ = (false, p) ∧ r.RemoveComponent k e₂ = (false, r) := by
  constructor
  · simp [Pool.Remove, hp]
  · unfold Registry.RemoveComponent
    cases hcase : r.lookupPool k with
    | none => rfl
    | some q =>
      have hq : q.Has e₂ = false := hr q hcase
      simp only [Pool.Remove, hq, Bool.false_eq_true, if_false]
      rw [Registry.setPool_self r k q hnd hcase]

/-- Witness for C8: a pool of capacity 3 holding only entity 1, and the
registry that owns it; removing the absent entity 0 is a no-op for both. -/
theorem remove_absent_noop_witness :
    (((Pool.init Nat 3).Add 1 9).2.Remove 0 = (false, ((Pool.init Nat 3).Add 1 9).2)) ∧
    ((((Registry.init Nat 3).AddComponent 0 1 9).2.RemoveComponent 0 0) =
      (false, (((Registry.init Nat 3).AddComponent 0 1 9).2))) := by
  refine remove_absent_noop _ _ 0 0 0 (by decide) (by decide) rfl ?_ ?_
  · show ([(0 : Nat)]).Nodup
    simp
  · intro q hq
    have : q = ((Pool.init Nat 3).Add 1 9).2 := by
      have h2 : ((((Registry.init Nat 3).AddComponent 0 1 9).2).lookupPool 0) =
          some (((Pool.init Nat 3).Add 1 9).2) := rfl
      rw [h2] at hq
      exact (Option.some_inj.mp hq).symm
    rw [this]
    rfl

theorem Pool.Remove_true [Inhabited V] (p : Pool V) (e : Nat)
    (h : p.Has e = true) : (p.Remove e).1 = true := by
  simp [Pool.Remove, h]

theorem Pool.Add_not_has (p : Pool V) (e : Nat) (v : V) (h : p.Has e = false) :
    p.Add e v =
      (some v,
        { p with
          dense := p.dense ++ [(e, v)]
          sparse := fun i => if i = e then p.dense.length else p.sparse i }) := by
  have hs : ¬ (p.Has e = true) := by simp [h]
  rw [Pool.Add, if_neg hs]

theorem Pool.Add_snd_not_has (p : Pool V) (e : Nat) (v : V) (h : p.Has e = false) :
    (p.Add e v).2 =
      { p with
        dense := p.dense ++ [(e, v)]
        sparse := fun i => if i = e then p.dense.length else p.sparse i } := by
  rw [Pool.Add_not_has p e v h]

theorem Pool.Add_Has_self (p : Pool V) (e : Nat) (v : V)
    (h : p.Has e = false) (hlen : p.dense.length ≠ p.capacity - 1) :
    ((p.Add e v).2).Has e = true := by
  rw [Pool.Add_not_has p e v h]
  simp [Pool.Has, hlen]

theorem Pool.Add_Get_self (p : Pool V) (e : Nat) (v : V)
    (h : p.Has e = false) (hlen : p.dense.length ≠ p.capacity - 1) :
    ((p.Add e v).2).Get e = some v := by
  rw [Pool.Get, Pool.Add_Has_self p e v h hlen, if_pos rfl,
    Pool.Add_not_has p e v h]
  simp [Pool.getVal]

theorem find?_map_entry (l : List (Nat × Pool V)) (k : Nat) (p' : Pool V) :
    (l.map (fun kp => if kp.1 = k then (k, p') else kp)).find? (fun kp => kp.1 == k) =
      (l.find? (fun kp => kp.1 == k)).map (fun _ => (k, p')) := by
  induction l with
  | nil => simp
  | cons hd t ih =>
    rcases hb : (hd.1 == k) with _ | _
    · have hne : hd.1 ≠ k := by simpa using hb
      simp only [List.map_cons, if_neg hne, List.find?_cons, hb, ih]
    · have hk : hd.1 = k := by simpa using hb
      simp only [List.map_cons, if_pos hk, List.find?_cons, hb]
      have : ((k, p').1 == k) = true := by simp
      simp [List.find?_cons, this]

theorem Registry.lookupPool_setPool (r : Registry V) (k : Nat) (p' : Pool V) :
    (r.setPool k p').lookupPool k = (r.lookupPool k).map (fun _ => p') := by
  unfold Registry.lookupPool Registry.setPool
  rw [find?_map_entry]
  cases r.pools.find? (fun kp => kp.1 == k) <;> rfl

theorem Registry.lookupPool_appendNew (r : Registry V) (k : Nat) (p' : Pool V)
    (h : r.lookupPool k = none) :
    ({ r with pools := r.pools ++ [(k, p')] } : Registry V).lookupPool k = some p' := by
  unfold Registry.lookupPool at *
  have hfind : r.pools.find? (fun kp => kp.1 == k) = none := by
    cases hf : r.pools.find? (fun kp => kp.1 == k) with
    | none => rfl
    | some kp0 => rw [hf] at h; simp at h
  simp [List.find?_append, hfind]

/-- C4: `AddComponent` is idempotent. If the pool for the key exists and
the entity already holds a component there, a second `AddComponent` with
any argument returns the pre-existing stored value and leaves the whole
registry (in particular the pool's dense and sparse arrays) unchanged. -/
theorem addComponent_idempotent (r : Registry V) (k e : Nat) (w : V) (p : Pool V)
    (he : e < r.maxEntities) (hnd : r.keysNodup)
    (hl : r.lookupPool k = some p) (hh : p.Has e = true) :
    r.AddComponent k e w = (p.getVal e, r) := by
  unfold Registry.AddComponent
  rw [hl]
  simp only [Pool.Add, hh, if_true]
  rw [Registry.setPool_self r k p hnd hl]

/-- Witness for C4: add value 7 to entity 0, then add again with value 9;
the second call returns the stored 7 and the registry is unchanged. -/
theorem addComponent_idempotent_witness :
    ((((Registry.init Nat 4).AddComponent 0 0 7).2).AddComponent 0 0 9 =
      ((((Pool.init Nat 4).Add 0 7).2).getVal 0,
        (((Registry.init Nat 4).AddComponent 0 0 7).2))) ∧
    (((Pool.init Nat 4).Add 0 7).2).getVal 0 = some 7 := by
  constructor
  · refine addComponent_idempotent _ 0 0 9 _ (by decide) ?_ rfl rfl
    show ([(0 : Nat)]).Nodup
    simp
  · rfl

theorem Registry.HasComponent_of_lookup (r : Registry V) (k e : Nat) (p1 : Pool V)
    (h : r.lookupPool k = some p1) : r.HasComponent k e = p1.Has e := by
  unfold Registry.HasComponent
  rw [h]

theorem Registry.GetComponent_of_lookup (r : Registry V) (k e : Nat) (p1 : Pool V)
    (h : r.lookupPool k = some p1) : r.GetComponent k e = p1.Get e := by
  unfold Registry.GetComponent
  rw [h]

theorem Registry.RemoveComponent_of_lookup [Inhabited V] (r : Registry V)
    (k e : Nat) (p1 : Pool V) (h : r.lookupPool k = some p1) :
    r.RemoveComponent k e = ((p1.Remove e).1, r.setPool k (p1.Remove e).2) := by
  unfold Registry.RemoveComponent
  rw [h]

theorem Registry.AddComponent_of_lookup_none (r : Registry V) (k e : Nat) (v : V)
    (h : r.lookupPool k = none) :
    r.AddComponent k e v = (((Pool.init V r.maxEntities).Add e v).1,
      { r with pools := r.pools ++ [(k, ((Pool.init V r.maxEntities).Add e v).2)] }) := by
  unfold Registry.AddComponent
  rw [h]

theorem Registry.AddComponent_of_lookup_some (r : Registry V) (k e : Nat) (v : V)
    (p : Pool V) (h : r.lookupPool k = some p) :
    r.AddComponent k e v = ((p.Add e v).1, r.setPool k (p.Add e v).2) := by
  unfold Registry.AddComponent
  rw [h]

theorem Registry.RemoveComponent_Has_self [Inhabited V] (r : Registry V)
    (k e : Nat) (p1 : Pool V) (h : r.lookupPool k = some p1) :
    (((r.RemoveComponent k e).2).HasComponent k e) = false := by
  rw [Registry.RemoveComponent_of_lookup r k e p1 h]
  have hl2 := Registry.lookupPool_setPool r k ((p1.Remove e).2)
  rw [h] at hl2
  rw [Registry.HasComponent_of_lookup _ k e _ (by simpa using hl2)]
  exact Pool.Remove_Has_self p1 e

/-- C5 fails as stated: with `maxEntities = 1`, adding a component to the
legal entity 0 stores it at dense index 0, which equals the sentinel
`capacity - 1`, so `HasComponent` is false immediately after the
`AddComponent`, contradicting the round-trip claim. -/
theorem roundTrip_cex :
    0 < (Registry.init Nat 1).maxEntities ∧
    (((Registry.init Nat 1).AddComponent 0 0 5).2).HasComponent 0 0 = false :=
  ⟨by decide, rfl⟩

/-- C5 (amended): the round trip holds provided the entity does not
already hold a component of that type and the dense index the new entry
receives differs from the sentinel `capacity - 1` (`P` is the pool the
`Add` acts on — the existing pool for the key, or the lazily created
one): then `AddComponent(e, v)` stores `v`, `HasComponent` is true and
`GetComponent` returns `v` immediately afterwards, and a subsequent
`RemoveComponent` returns true and leaves `HasComponent` false. -/
theorem roundTrip [Inhabited V] (r : Registry V) (k e : Nat) (v : V) (P : Pool V)
    (he : e < r.maxEntities)
    (hP : (r.lookupPool k).getD (Pool.init V r.maxEntities) = P)
    (hnh : P.Has e = false) (hlen : P.dense.length ≠ P.capacity - 1) :
    (r.AddComponent k e v).1 = some v ∧
    ((r.AddComponent k e v).2).HasComponent k e = true ∧
    ((r.AddComponent k e v).2).GetComponent k e = some v ∧
    (((r.AddComponent k e v).2).RemoveComponent k e).1 = true ∧
    ((((r.AddComponent k e v).2).RemoveComponent k e).2).HasComponent k e = false := by
  have key : ∀ r1 : Registry V, r1.lookupPool k = some ((P.Add e v).2) →
      (r1.HasComponent k e = true ∧ r1.GetComponent k e = some v ∧
        (r1.RemoveComponent k e).1 = true ∧
        ((r1.RemoveComponent k e).2).HasComponent k e = false) := by
    intro r1 hl1
    have hhas := Pool.Add_Has_self P e v hnh hlen
    refine ⟨?_, ?_, ?_, ?_⟩
    · rw [Registry.HasComponent_of_lookup r1 k e _ hl1]
      exact hhas
    · rw [Registry.GetComponent_of_lookup r1 k e _ hl1]
      exact Pool.Add_Get_self P e v hnh hlen
    · rw [Registry.RemoveComponent_of_lookup r1 k e _ hl1]
      exact Pool.Remove_true _ e hhas
    · exact Registry.RemoveComponent_Has_self r1 k e _ hl1
  have hret : (P.Add e v).1 = some v := by
    rw [Pool.Add_not_has P e v hnh]
  cases hr : r.lookupPool k with
  | none =>
    have hPi : P = Pool.init V r.maxEntities := by
      rw [hr] at hP
      exact hP.symm
    rw [Registry.AddComponent_of_lookup_none r k e v hr, ← hPi]
    exact ⟨hret, key _ (Registry.lookupPool_appendNew r k ((P.Add e v).2) hr)⟩
  | some p =>
    have hPp : P = p := by
      rw [hr] at hP
      exact hP.symm
    subst hPp
    rw [Registry.AddComponent_of_lookup_some r k e v P hr]
    have hl1 := Registry.lookupPool_setPool r k ((P.Add e v).2)
    rw [hr] at hl1
    simp only [Option.map_some'] at hl1
    exact ⟨hret, key _ hl1⟩

/-- Witness for C5 (amended): registry of capacity 4, fresh entity 0 and
value 5; all hypotheses hold and the round trip goes through. -/
theorem roundTrip_witness :
    ((Registry.init Nat 4).AddComponent 0 0 5).1 = some 5 ∧
    (((Registry.init Nat 4).AddComponent 0 0 5).2).HasComponent 0 0 = true ∧
    (((Registry.init Nat 4).AddComponent 0 0 5).2).GetComponent 0 0 = some 5 ∧
    ((((Registry.init Nat 4).AddComponent 0 0 5).2).RemoveComponent 0 0).1 = true ∧
    (((((Registry.init Nat 4).AddComponent 0 0 5).2).RemoveComponent 0 0).2).HasComponent 0 0
      = false :=
  roundTrip (Registry.init Nat 4) 0 0 5 (Pool.init Nat 4) (by decide) rfl rfl
    (by decide)

/-- Calling `CreateEntity` `n` times in a row, collecting the returned
IDs; `none` as soon as one call hits the capacity assertion. -/
def Registry.createN {V : Type} (r : Registry V) : Nat → Option (List Nat × Registry V)
  | 0 => some ([], r)
  | n + 1 =>
    match r.CreateEntity with
    | some (id, r') => (r'.createN n).map (fun pr => (id :: pr.1, pr.2))
    | none => none

theorem Registry.createN_ok (r : Registry V) (n : Nat)
    (hfree : r.freeEntities = []) (h : r.nextEntity + n < r.maxEntities) :
    r.createN n = some ((List.range n).map (fun i => r.nextEntity + i),
      { r with nextEntity := r.nextEntity + n }) := by
  induction n generalizing r with
  | zero => simp [Registry.createN]
  | succ n ih =>
    have hstep : r.CreateEntity =
        some (r.nextEntity, { r with nextEntity := r.nextEntity + 1 }) := by
      unfold Registry.CreateEntity
      rw [hfree]
      simp only [List.isEmpty_nil, if_true]
      rw [if_pos (by omega)]
    have hih := ih { r with nextEntity := r.nextEntity + 1 } hfree
      (by show r.nextEntity + 1 + n < r.maxEntities; omega)
    rw [Registry.createN, hstep]
    change Option.map (fun pr => (r.nextEntity :: pr.1, pr.2))
      (({ r with nextEntity := r.nextEntity + 1 } : Registry V).createN n) = _
    rw [hih]
    simp only [Option.map_some']
    refine congrArg some (Prod.ext ?_ ?_)
    · show r.nextEntity :: (List.range n).map (fun i => r.nextEntity + 1 + i) =
        (List.range (n + 1)).map (fun i => r.nextEntity + i)
      rw [List.range_succ_eq_map, List.map_cons, List.map_map]
      refine congrArg₂ List.cons (by omega) (List.map_congr_left ?_)
      intro a _
      show r.nextEntity + 1 + a = r.nextEntity + (a + 1)
      omega
    · show ({ r with nextEntity := r.nextEntity + 1 + n } : Registry V)
        = { r with nextEntity := r.nextEntity + (n + 1) }
      rw [show r.nextEntity + 1 + n = r.nextEntity + (n + 1) by omega]

theorem Registry.createN_fail (r : Registry V) (n : Nat)
    (hn : 1 ≤ n) (hfree : r.freeEntities = [])
    (h : r.maxEntities ≤ r.nextEntity + n) : r.createN n = none := by
  induction n generalizing r with
  | zero => omega
  | succ n ih =>
    by_cases hlt : r.nextEntity + 1 < r.maxEntities
    · have hstep : r.CreateEntity =
          some (r.nextEntity, { r with nextEntity := r.nextEntity + 1 }) := by
        unfold Registry.CreateEntity
        rw [hfree]
        simp only [List.isEmpty_nil, if_true]
        rw [if_pos hlt]
      have hn1 : 1 ≤ n := by omega
      have hih := ih { r with nextEntity := r.nextEntity + 1 } hn1 hfree
        (by show r.maxEntities ≤ r.nextEntity + 1 + n; omega)
      rw [Registry.createN, hstep]
      change Option.map (fun pr => (r.nextEntity :: pr.1, pr.2))
        (({ r with nextEntity := r.nextEntity + 1 } : Registry V).createN n) = none
      rw [hih]
      rfl
    · have hstep : r.CreateEntity = none := by
        unfold Registry.CreateEntity
        rw [hfree]
        simp only [List.isEmpty_nil, if_true]
        rw [if_neg hlt]
      rw [Registry.createN, hstep]

/-- C1 fails as stated: with `maxEntities = 1`, the free list is empty and
the number of live entities (0, equal to `nextEntity` in a registry with
no deletions) is strictly less than `maxEntities`, yet the very first
`CreateEntity` already hits the capacity assertion, because the code
requires `m_NextEntity + 1 < m_MaxEntities`. -/
theorem createEntity_capacity_cex :
    (Registry.init Nat 1).freeEntities = [] ∧
    (Registry.init Nat 1).nextEntity < (Registry.init Nat 1).maxEntities ∧
    (Registry.init Nat 1).CreateEntity = none :=
  ⟨rfl, by decide, rfl⟩

/-- C1 (amended): with the free list empty, `CreateEntity` succeeds
(returning the high-water mark as a fresh ID) exactly when
`nextEntity + 1 < maxEntities`; consequently, for a registry with
capacity `maxEntities ≥ 1` and no deletions, the first `maxEntities - 1`
calls succeed, returning `0, 1, …, maxEntities - 2`, and the
`maxEntities`-th call fails. -/
theorem createEntity_capacity (V : Type) (max : Nat) (hmax : 1 ≤ max)
    (r : Registry V) (hfree : r.freeEntities = []) :
    (Registry.init V max).createN (max - 1) =
      some (List.range (max - 1),
        { Registry.init V max with nextEntity := max - 1 }) ∧
    (Registry.init V max).createN max = none ∧
    ((r.CreateEntity).isSome = true ↔ r.nextEntity + 1 < r.maxEntities) ∧
    (r.nextEntity + 1 < r.maxEntities →
      r.CreateEntity = some (r.nextEntity, { r with nextEntity := r.nextEntity + 1 })) := by
  have hstep : ∀ (h : r.nextEntity + 1 < r.maxEntities),
      r.CreateEntity = some (r.nextEntity, { r with nextEntity := r.nextEntity + 1 }) := by
    intro h
    unfold Registry.CreateEntity
    rw [hfree]
    simp only [List.isEmpty_nil, if_true]
    rw [if_pos h]
  refine ⟨?_, ?_, ?_, hstep⟩
  · have := Registry.createN_ok (Registry.init V max) (max - 1) rfl
      (by simp [Registry.init]; omega)
    simpa [Registry.init] using this
  · exact Registry.createN_fail (Registry.init V max) max hmax rfl
      (by simp [Registry.init])
  · constructor
    · intro hs
      by_contra hlt
      have : r.CreateEntity = none := by
        unfold Registry.CreateEntity
        rw [hfree]
        simp only [List.isEmpty_nil, if_true]
        rw [if_neg hlt]
      rw [this] at hs
      simp at hs
    · intro h
      rw [hstep h]
      rfl

/-- Witness for C1 (amended): capacity 3 — two creates succeed returning
0 and 1, the third fails, and the success criterion is
`nextEntity + 1 < maxEntities`. -/
theorem createEntity_capacity_witness :
    (Registry.init Nat 3).createN 2 =
      some (List.range 2, { Registry.init Nat 3 with nextEntity := 2 }) ∧
    (Registry.init Nat 3).createN 3 = none ∧
    (((Registry.init Nat 3).CreateEntity).isSome = true ↔
      (Registry.init Nat 3).nextEntity + 1 < (Registry.init Nat 3).maxEntities) ∧
    ((Registry.init Nat 3).nextEntity + 1 < (Registry.init Nat 3).maxEntities →
      (Registry.init Nat 3).CreateEntity =
        some ((Registry.init Nat 3).nextEntity,
          { Registry.init Nat 3 with nextEntity := (Registry.init Nat 3).nextEntity + 1 })) :=
  createEntity_capacity Nat 3 (by decide) (Registry.init Nat 3) rfl

theorem Pool.ext' {p q : Pool V} (h1 : p.capacity = q.capacity)
    (h2 : p.sparse = q.sparse) (h3 : p.dense = q.dense) : p = q := by
  cases p
  cases q
  simp_all

theorem Pool.applyOps_append [Inhabited V] (p : Pool V)
    (l1 l2 : List (PoolOp V)) :
    p.applyOps (l1 ++ l2) = (p.applyOps l1).applyOps l2 := by
  induction l1 generalizing p with
  | nil => rfl
  | cons op t ih => exact ih (p.applyOp op)

/-- Adding entities `0, 1, …, k-1` (each with value `v`) to a fresh pool
of capacity `c` produces the obvious state: entity `i` sits at dense
index `i`, and every other sparse entry still holds the sentinel. -/
theorem Pool.addRange (c : Nat) (v : V) [Inhabited V] :
    ∀ k, k ≤ c →
      (Pool.init V c).applyOps ((List.range k).map (fun i => PoolOp.add i v)) =
        { capacity := c, sparse := fun i => if i < k then i else c - 1,
          dense := (List.range k).map (fun i => (i, v)) } := by
  intro k
  induction k with
  | zero =>
    intro _
    refine Pool.ext' rfl ?_ rfl
    funext i
    simp [Pool.init, Pool.applyOps]
  | succ k ih =>
    intro hk
    rw [List.range_succ, List.map_append, Pool.applyOps_append,
      ih (by omega)]
    simp only [List.map_cons, List.map_nil, Pool.applyOps, Pool.applyOp]
    have hhas : (⟨c, fun i => if i < k then i else c - 1,
        (List.range k).map (fun i => (i, v))⟩ : Pool V).Has k = false := by
      simp [Pool.Has]
    rw [Pool.Add_not_has _ k v hhas]
    refine Pool.ext' rfl ?_ ?_
    · funext i
      rcases Nat.lt_trichotomy i k with h | h | h
      · simp only []
        rw [if_neg (by omega), if_pos h, if_pos (by omega)]
      · simp only []
        rw [if_pos h, if_pos (by omega), List.length_map, List.length_range, h]
      · simp only []
        rw [if_neg (by omega), if_neg (by omega), if_neg (by omega)]
    · simp only []
      rw [List.map_append]
      rfl

/-- C2: sentinel collision. For every pool capacity `c ≥ 1` there is a
sequence of `Add` calls with distinct entity IDs all below `c` after
which some entity's `(entity, value)` pair sits at dense index `c - 1`
while `Has` reports false for it: the sentinel encoding cannot
distinguish that entity from an absent one. -/
theorem sentinel_collision (V : Type) [Inhabited V] (c : Nat) (hc : 1 ≤ c) :
    ∃ adds : List (Nat × V),
      (adds.map Prod.fst).Nodup ∧ (∀ a ∈ adds, a.1 < c) ∧
      ∃ e v,
        ((Pool.init V c).applyOps
          (adds.map (fun a => PoolOp.add a.1 a.2))).Has e = false ∧
        ((Pool.init V c).applyOps
          (adds.map (fun a => PoolOp.add a.1 a.2))).dense[c-1]? = some (e, v) := by
  refine ⟨(List.range c).map (fun i => (i, default)), ?_, ?_, c - 1, default, ?_, ?_⟩
  · rw [List.map_map]
    have h1 : (List.range c).map (Prod.fst ∘ fun i => ((i, (default : V)) : Nat × V))
        = (List.range c).map id := List.map_congr_left (fun a _ => rfl)
    rw [h1, List.map_id]
    exact List.nodup_range c
  · intro a ha
    obtain ⟨i, hi, rfl⟩ := List.mem_map.mp ha
    simpa using List.mem_range.mp hi
  · rw [List.map_map]
    have := Pool.addRange c (default : V) c (le_refl c)
    rw [show ((fun a : Nat × V => PoolOp.add a.1 a.2) ∘ fun i => (i, default)) =
      (fun i => PoolOp.add i (default : V)) from rfl, this]
    simp [Pool.Has]
  · rw [List.map_map]
    have := Pool.addRange c (default : V) c (le_refl c)
    rw [show ((fun a : Nat × V => PoolOp.add a.1 a.2) ∘ fun i => (i, default)) =
      (fun i => PoolOp.add i (default : V)) from rfl, this]
    show (((List.range c).map fun i => (i, default))[c-1]? : Option (Nat × V))
      = some (c - 1, default)
    rw [List.getElem?_map, List.getElem?_range (by omega)]
    rfl

/-- Witness for C2: capacity 3 — the construction exists concretely. -/
theorem sentinel_collision_witness :
    (1 ≤ 3) ∧
    ∃ adds : List (Nat × Nat),
      (adds.map Prod.fst).Nodup ∧ (∀ a ∈ adds, a.1 < 3) ∧
      ∃ e v,
        ((Pool.init Nat 3).applyOps
          (adds.map (fun a => PoolOp.add a.1 a.2))).Has e = false ∧
        ((Pool.init Nat 3).applyOps
          (adds.map (fun a => PoolOp.add a.1 a.2))).dense[3-1]? = some (e, v) :=
  ⟨by decide, sentinel_collision Nat 3 (by decide)⟩

/-- The entity an operation targets. -/
def PoolOp.entity {V : Type} : PoolOp V → Nat
  | .add e _ => e
  | .remove e => e

/-- The sparse/dense linking invariant of the spec: an entity whose
sparse entry is not the sentinel points at an in-range dense slot holding
that entity, and every dense slot's entity points back at that slot. -/
def Pool.Inv (p : Pool V) : Prop :=
  (∀ e, e < p.capacity → p.sparse e ≠ p.capacity - 1 →
    p.sparse e < p.dense.length ∧
      (p.dense[p.sparse e]?).map Prod.fst = some e) ∧
  (∀ i, ∀ x : Nat × V, p.dense[i]? = some x → p.sparse x.1 = i)

/-- Safety guard for a single call: the range assertion of the C++, and —
for an `Add` that actually inserts — that the new dense index stays below
the sentinel value `capacity - 1`. -/
def PoolOp.Safe {V : Type} (p : Pool V) : PoolOp V → Prop
  | .add e _ => e < p.capacity ∧ (p.Has e = true ∨ p.dense.length + 1 < p.capacity)
  | .remove e => e < p.capacity

/-- Every call of the trace is safe in the state it runs in. -/
def Pool.SafeTrace {V : Type} [Inhabited V] (p : Pool V) : List (PoolOp V) → Prop
  | [] => True
  | op :: t => op.Safe p ∧ (p.applyOp op).SafeTrace t

theorem Pool.Inv_init (c : Nat) : (Pool.init V c).Inv := by
  constructor
  · intro e _ hne
    exact absurd rfl hne
  · intro i x hx
    simp [Pool.init] at hx

theorem Pool.Inv_add (p : Pool V) (e : Nat) (v : V) (hInv : p.Inv)
    (hsafe : p.Has e = true ∨ p.dense.length + 1 < p.capacity) :
    ((p.Add e v).2).Inv := by
  cases hhas : p.Has e with
  | true =>
    have : (p.Add e v).2 = p := by rw [Pool.Add, if_pos hhas]
    rw [this]
    exact hInv
  | false =>
    have hlen : p.dense.length + 1 < p.capacity := by
      rcases hsafe with h | h
      · rw [hhas] at h
        cases h
      · exact h
    have hse : p.sparse e = p.capacity - 1 := Pool.Has_eq_false_iff.mp hhas
    rw [Pool.Add_snd_not_has p e v hhas]
    constructor
    · intro f hf hnf
      by_cases hfe : f = e
      · subst hfe
        refine ⟨?_, ?_⟩
        · show (if f = f then p.dense.length else p.sparse f) <
            (p.dense ++ [(f, v)]).length
          rw [if_pos rfl]
          simp
        · show ((p.dense ++ [(f, v)])[if f = f then p.dense.length
            else p.sparse f]?).map Prod.fst = some f
          rw [if_pos rfl, List.getElem?_concat_length]
          rfl
      · have hnf' : p.sparse f ≠ p.capacity - 1 := by
          show ¬ _
          intro hcon
          exact hnf (by show (if f = e then p.dense.length else p.sparse f)
            = p.capacity - 1; rw [if_neg hfe]; exact hcon)
        obtain ⟨hb, hg⟩ := hInv.1 f hf hnf'
        refine ⟨?_, ?_⟩
        · show (if f = e then p.dense.length else p.sparse f) <
            (p.dense ++ [(e, v)]).length
          rw [if_neg hfe]
          simp only [List.length_append, List.length_cons, List.length_nil]
          omega
        · show ((p.dense ++ [(e, v)])[if f = e then p.dense.length
            else p.sparse f]?).map Prod.fst = some f
          rw [if_neg hfe, List.getElem?_append, if_pos hb]
          exact hg
    · intro i x hx
      have hilen : i < p.dense.length + 1 := by
        have := (List.getElem?_eq_some.mp hx).1
        simpa [List.length_append] using this
      by_cases hie : i = p.dense.length
      · subst hie
        rw [List.getElem?_concat_length] at hx
        have hxe : x = (e, v) := (Option.some_inj.mp hx).symm
        subst hxe
        show (if e = e then p.dense.length else p.sparse e) = p.dense.length
        rw [if_pos rfl]
      · have hil : i < p.dense.length := by omega
        rw [List.getElem?_append, if_pos hil] at hx
        have hold := hInv.2 i x hx
        have hxe : x.1 ≠ e := by
          intro hcon
          rw [hcon, hse] at hold
          omega
        show (if x.1 = e then p.dense.length else p.sparse x.1) = i
        rw [if_neg hxe]
        exact hold

theorem Pool.Remove_snd_has [Inhabited V] (p : Pool V) (e : Nat)
    (h : p.Has e = true) :
    (p.Remove e).2 =
      { p with
        dense := (p.dense.set (p.sparse e)
          (p.dense.getD (p.dense.length - 1) default)).dropLast
        sparse := fun i =>
          if i = e then p.capacity - 1
          else if i = (p.dense.getD (p.dense.length - 1) default).1 then p.sparse e
          else p.sparse i } := by
  rw [Pool.Remove, if_pos h]

theorem Pool.Remove_snd_not_has [Inhabited V] (p : Pool V) (e : Nat)
    (h : p.Has e = false) : (p.Remove e).2 = p := by
  rw [Pool.Remove, if_neg (by simp [h])]

theorem Pool.Inv_remove [Inhabited V] (p : Pool V) (e : Nat) (hInv : p.Inv)
    (he : e < p.capacity) : ((p.Remove e).2).Inv := by
  cases hhas : p.Has e with
  | false =>
    rw [Pool.Remove_snd_not_has p e hhas]
    exact hInv
  | true =>
    have hse : p.sparse e ≠ p.capacity - 1 := Pool.Has_eq_true_iff.mp hhas
    obtain ⟨hidx, hde⟩ := hInv.1 e he hse
    have hn1 : p.dense.length - 1 < p.dense.length := by omega
    have hL : p.dense[p.dense.length - 1]? =
        some (p.dense.getD (p.dense.length - 1) default) := by
      rw [List.getD_eq_getElem?_getD, List.getElem?_eq_getElem hn1]
      rfl
    have hlast : p.sparse (p.dense.getD (p.dense.length - 1) default).1 =
        p.dense.length - 1 := hInv.2 _ _ hL
    obtain ⟨E, hE, hE1⟩ := Option.map_eq_some'.mp hde
    have hiff : (p.dense.getD (p.dense.length - 1) default).1 = e ↔
        p.sparse e = p.dense.length - 1 := by
      constructor
      · intro h
        rw [h] at hlast
        exact hlast
      · intro h
        rw [h] at hE
        rw [hE] at hL
        have : E = p.dense.getD (p.dense.length - 1) default := Option.some_inj.mp hL
        rw [← this, hE1]
    have hget2 : ∀ i,
        ((p.dense.set (p.sparse e)
          (p.dense.getD (p.dense.length - 1) default)).dropLast)[i]? =
        if i < p.dense.length - 1 then
          (if p.sparse e = i then some (p.dense.getD (p.dense.length - 1) default)
            else p.dense[i]?)
        else none := by
      intro i
      rw [List.getElem?_dropLast, List.length_set, List.getElem?_set]
      by_cases hi : i < p.dense.length - 1
      · rw [if_pos hi, if_pos hi]
        by_cases hii : p.sparse e = i
        · rw [if_pos hii, if_pos hii, if_pos (by omega)]
        · rw [if_neg hii, if_neg hii]
      · rw [if_neg hi, if_neg hi]
    have hcap : ((p.Remove e).2).capacity = p.capacity := by
      rw [Pool.Remove_snd_has p e hhas]
    have hspf : ∀ g, ((p.Remove e).2).sparse g =
        (if g = e then p.capacity - 1
         else if g = (p.dense.getD (p.dense.length - 1) default).1 then p.sparse e
         else p.sparse g) := by
      intro g
      rw [Pool.Remove_snd_has p e hhas]
    have hdn : ((p.Remove e).2).dense =
        (p.dense.set (p.sparse e)
          (p.dense.getD (p.dense.length - 1) default)).dropLast := by
      rw [Pool.Remove_snd_has p e hhas]
    have hlen2 : ((p.Remove e).2).dense.length = p.dense.length - 1 := by
      rw [hdn, List.length_dropLast, List.length_set]
    constructor
    · intro f hf hnf
      rw [hcap] at hf
      rw [hspf f, hcap] at hnf
      rw [hspf f, hdn, List.length_dropLast, List.length_set]
      by_cases hfe : f = e
      · rw [if_pos hfe] at hnf
        exact absurd rfl hnf
      · rw [if_neg hfe] at hnf ⊢
        by_cases hfL : f = (p.dense.getD (p.dense.length - 1) default).1
        · rw [if_pos hfL] at hnf ⊢
          have hne : p.sparse e ≠ p.dense.length - 1 := by
            intro hcon
            exact hfe (by rw [hfL, hiff.mpr hcon])
          refine ⟨by omega, ?_⟩
          rw [hget2, if_pos (by omega), if_pos rfl, hfL]
          rfl
        · rw [if_neg hfL] at hnf ⊢
          obtain ⟨hjb, hjg⟩ := hInv.1 f hf hnf
          have hji : p.sparse f ≠ p.sparse e := by
            intro hcon
            rw [hcon] at hjg
            rw [hde] at hjg
            exact hfe (Option.some_inj.mp hjg.symm).symm.symm
          have hjn : p.sparse f ≠ p.dense.length - 1 := by
            intro hcon
            rw [hcon, hL] at hjg
            exact hfL (Option.some_inj.mp hjg.symm)
          refine ⟨by omega, ?_⟩
          rw [hget2, if_pos (by omega), if_neg (Ne.symm hji)]
          exact hjg
    · intro i x hx
      rw [hdn, hget2 i] at hx
      rw [hspf x.1]
      by_cases hi : i < p.dense.length - 1
      · rw [if_pos hi] at hx
        by_cases hii : p.sparse e = i
        · rw [if_pos hii] at hx
          have hxL : x = p.dense.getD (p.dense.length - 1) default :=
            (Option.some_inj.mp hx).symm
          have hLe : (p.dense.getD (p.dense.length - 1) default).1 ≠ e := by
            intro hcon
            have := hiff.mp hcon
            omega
          rw [hxL, if_neg hLe, if_pos rfl]
          exact hii
        · rw [if_neg hii] at hx
          have hold := hInv.2 i x hx
          have hxe : x.1 ≠ e := by
            intro hcon
            rw [hcon] at hold
            exact hii hold
          have hxL : x.1 ≠ (p.dense.getD (p.dense.length - 1) default).1 := by
            intro hcon
            rw [hcon, hlast] at hold
            omega
          rw [if_neg hxe, if_neg hxL]
          exact hold
      · rw [if_neg hi] at hx
        cases hx

theorem Pool.Remove_capacity [Inhabited V] (p : Pool V) (e : Nat) :
    ((p.Remove e).2).capacity = p.capacity := by
  rw [Pool.Remove]
  split <;> rfl

theorem Pool.Remove_length_has [Inhabited V] (p : Pool V) (e : Nat)
    (hhas : p.Has e = true) :
    ((p.Remove e).2).dense.length = p.dense.length - 1 := by
  rw [Pool.Remove_snd_has p e hhas]
  show ((p.dense.set _ _).dropLast).length = _
  rw [List.length_dropLast, List.length_set]

theorem Pool.Remove_sparse_apply [Inhabited V] (p : Pool V) (e : Nat)
    (hhas : p.Has e = true) (g : Nat) :
    ((p.Remove e).2).sparse g =
      (if g = e then p.capacity - 1
       else if g = (p.dense.getD (p.dense.length - 1) default).1 then p.sparse e
       else p.sparse g) := by
  rw [Pool.Remove_snd_has p e hhas]

theorem Pool.Remove_dense_getElem [Inhabited V] (p : Pool V) (e : Nat)
    (hhas : p.Has e = true) (hidx : p.sparse e < p.dense.length) (i : Nat) :
    ((p.Remove e).2).dense[i]? =
      (if i < p.dense.length - 1 then
        (if p.sparse e = i then some (p.dense.getD (p.dense.length - 1) default)
          else p.dense[i]?)
       else none) := by
  rw [Pool.Remove_snd_has p e hhas]
  show ((p.dense.set _ _).dropLast)[i]? = _
  rw [List.getElem?_dropLast, List.length_set, List.getElem?_set]
  by_cases hi : i < p.dense.length - 1
  · rw [if_pos hi, if_pos hi]
    by_cases hii : p.sparse e = i
    · rw [if_pos hii, if_pos hii, if_pos (by omega)]
    · rw [if_neg hii, if_neg hii]
  · rw [if_neg hi, if_neg hi]

theorem Pool.Inv_applyOps [Inhabited V] (trace : List (PoolOp V)) :
    ∀ p : Pool V, p.Inv → p.SafeTrace trace → (p.applyOps trace).Inv := by
  induction trace with
  | nil =>
    intro p h _
    exact h
  | cons op t ih =>
    intro p hInv hsafe
    obtain ⟨hop, htail⟩ := hsafe
    refine ih (p.applyOp op) ?_ htail
    cases op with
    | add e v => exact Pool.Inv_add p e v hInv hop.2
    | remove e => exact Pool.Inv_remove p e hInv hop

/-- C3 fails as stated: with capacity 1 the trace `Add(0); Add(0)` (all
entity IDs below the capacity) leaves the pool with the pair for entity 0
duplicated in the dense array — the first `Add` parked entity 0 at dense
index 0, which equals the sentinel, so the second `Add` pushed it again —
and the state violates the linking invariant: dense slot 0 holds entity 0
but `sparse[0] = 1`. -/
theorem linking_invariant_cex :
    (∀ op ∈ ([PoolOp.add 0 5, PoolOp.add 0 7] : List (PoolOp Nat)),
      op.entity < 1) ∧
    ¬ ((Pool.init Nat 1).applyOps [PoolOp.add 0 5, PoolOp.add 0 7]).Inv := by
  constructor
  · intro op hop
    simp only [List.mem_cons, List.not_mem_nil, or_false] at hop
    rcases hop with rfl | rfl <;> decide
  · intro hInv
    have h0 : ((Pool.init Nat 1).applyOps
        [PoolOp.add 0 5, PoolOp.add 0 7]).dense[0]? = some (0, 5) := rfl
    have := hInv.2 0 (0, 5) h0
    exact absurd this (by decide)

/-- C3 (amended): the sparse/dense linking invariant holds in every state
reachable from the empty pool by `Add`/`Remove` calls with entity IDs
below the capacity, provided each `Add` either targets an entity already
present or runs while the dense array holds fewer than `capacity - 1`
entries (so no insertion ever lands on the sentinel index). The
unrestricted claim is refuted by the duplication counterexample. -/
theorem linking_invariant [Inhabited V] (c : Nat) (trace : List (PoolOp V))
    (hsafe : (Pool.init V c).SafeTrace trace) :
    ((Pool.init V c).applyOps trace).Inv :=
  Pool.Inv_applyOps trace _ (Pool.Inv_init c) hsafe

/-- Witness for C3 (amended): a concrete safe trace on a capacity-3 pool. -/
theorem linking_invariant_witness :
    ((Pool.init Nat 3).applyOps
      [PoolOp.add 0 5, PoolOp.add 1 6, PoolOp.remove 0]).Inv :=
  linking_invariant 3 [PoolOp.add 0 5, PoolOp.add 1 6, PoolOp.remove 0]
    ⟨⟨by decide, Or.inr (by decide)⟩,
      ⟨by decide, Or.inr (by decide)⟩, (by decide : (0:Nat) < 3), trivial⟩

/-- C6: removal compaction. On a pool satisfying the linking invariant,
removing a present entity returns true, shrinks the dense array by
exactly one, marks `sparse[e]` with the sentinel, preserves the linking
invariant for the remaining entries, moves the entry previously at the
last dense index into `e`'s former slot with its sparse entry updated to
that slot (when `e` was not itself last), and changes no other entity's
stored value. -/
theorem remove_compaction [Inhabited V] (p : Pool V) (e : Nat)
    (hInv : p.Inv) (he : e < p.capacity) (hhas : p.Has e = true) :
    (p.Remove e).1 = true ∧
    ((p.Remove e).2).dense.length + 1 = p.dense.length ∧
    ((p.Remove e).2).sparse e = p.capacity - 1 ∧
    ((p.Remove e).2).Inv ∧
    (p.sparse e ≠ p.dense.length - 1 →
      ∀ L, p.dense[p.dense.length - 1]? = some L →
        ((p.Remove e).2).dense[p.sparse e]? = some L ∧
        ((p.Remove e).2).sparse L.1 = p.sparse e) ∧
    (∀ f, f < p.capacity → f ≠ e → p.Has f = true →
      ((p.Remove e).2).Has f = true ∧
      ((p.Remove e).2).getVal f = p.getVal f) := by
  have hse : p.sparse e ≠ p.capacity - 1 := Pool.Has_eq_true_iff.mp hhas
  obtain ⟨hidx, hde⟩ := hInv.1 e he hse
  have hn1 : p.dense.length - 1 < p.dense.length := by omega
  have hL0 : p.dense[p.dense.length - 1]? =
      some (p.dense.getD (p.dense.length - 1) default) := by
    rw [List.getD_eq_getElem?_getD, List.getElem?_eq_getElem hn1]
    rfl
  have hlast : p.sparse (p.dense.getD (p.dense.length - 1) default).1 =
      p.dense.length - 1 := hInv.2 _ _ hL0
  refine ⟨Pool.Remove_true p e hhas, ?_, ?_, Pool.Inv_remove p e hInv he,
    ?_, ?_⟩
  · rw [Pool.Remove_length_has p e hhas]
    omega
  · rw [Pool.Remove_sparse_apply p e hhas, if_pos rfl]
  · intro hne L hL
    have hLd : p.dense.getD (p.dense.length - 1) default = L := by
      rw [List.getD_eq_getElem?_getD, hL]
      rfl
    have hLe : L.1 ≠ e := by
      intro hcon
      rw [hLd, hcon] at hlast
      exact hne hlast
    constructor
    · rw [Pool.Remove_dense_getElem p e hhas hidx, if_pos (by omega),
        if_pos rfl, hLd]
    · rw [Pool.Remove_sparse_apply p e hhas, if_neg hLe, hLd, if_pos rfl]
  · intro f hf hfe hhf
    have hsf : p.sparse f ≠ p.capacity - 1 := Pool.Has_eq_true_iff.mp hhf
    obtain ⟨hjb, hjg⟩ := hInv.1 f hf hsf
    by_cases hfL : f = (p.dense.getD (p.dense.length - 1) default).1
    · have hje : p.sparse f = p.dense.length - 1 := by
        rw [hfL]
        exact hlast
      have hine : p.sparse e ≠ p.dense.length - 1 := by
        intro hcon
        rw [← hje] at hcon
        rw [hcon] at hde
        rw [hde] at hjg
        exact hfe (Option.some_inj.mp hjg).symm
      constructor
      · rw [Pool.Has_eq_true_iff, Pool.Remove_capacity,
          Pool.Remove_sparse_apply p e hhas, if_neg hfe, if_pos hfL]
        exact hse
      · rw [Pool.getVal, Pool.getVal,
          Pool.Remove_sparse_apply p e hhas, if_neg hfe, if_pos hfL,
          Pool.Remove_dense_getElem p e hhas hidx, if_pos (by omega),
          if_pos rfl, hje, hL0]
    · have hjn : p.sparse f ≠ p.dense.length - 1 := by
        intro hcon
        rw [hcon, hL0] at hjg
        exact hfL (Option.some_inj.mp hjg.symm)
      have hji : p.sparse e ≠ p.sparse f := by
        intro hcon
        rw [← hcon] at hjg
        rw [hde] at hjg
        exact hfe (Option.some_inj.mp hjg.symm).symm.symm
      constructor
      · rw [Pool.Has_eq_true_iff, Pool.Remove_capacity,
          Pool.Remove_sparse_apply p e hhas, if_neg hfe, if_neg hfL]
        exact hsf
      · rw [Pool.getVal, Pool.getVal,
          Pool.Remove_sparse_apply p e hhas, if_neg hfe, if_neg hfL,
          Pool.Remove_dense_getElem p e hhas hidx, if_pos (by omega),
          if_neg hji]

/-- Witness for C6: capacity-4 pool holding entities 0 and 1, removing
entity 0 (the invariant hypothesis is supplied by the trace lemma). -/
theorem remove_compaction_witness :
    (((Pool.init Nat 4).applyOps [PoolOp.add 0 7, PoolOp.add 1 8]).Remove 0).1
      = true ∧
    ((((Pool.init Nat 4).applyOps
        [PoolOp.add 0 7, PoolOp.add 1 8]).Remove 0).2).dense.length + 1 =
      ((Pool.init Nat 4).applyOps [PoolOp.add 0 7, PoolOp.add 1 8]).dense.length ∧
    ((((Pool.init Nat 4).applyOps
        [PoolOp.add 0 7, PoolOp.add 1 8]).Remove 0).2).sparse 0 =
      ((Pool.init Nat 4).applyOps [PoolOp.add 0 7, PoolOp.add 1 8]).capacity - 1 ∧
    ((((Pool.init Nat 4).applyOps
        [PoolOp.add 0 7, PoolOp.add 1 8]).Remove 0).2).Inv ∧
    (((Pool.init Nat 4).applyOps [PoolOp.add 0 7, PoolOp.add 1 8]).sparse 0 ≠
        ((Pool.init Nat 4).applyOps [PoolOp.add 0 7, PoolOp.add 1 8]).dense.length - 1 →
      ∀ L, ((Pool.init Nat 4).applyOps
          [PoolOp.add 0 7, PoolOp.add 1 8]).dense[((Pool.init Nat 4).applyOps
            [PoolOp.add 0 7, PoolOp.add 1 8]).dense.length - 1]? = some L →
        ((((Pool.init Nat 4).applyOps
          [PoolOp.add 0 7, PoolOp.add 1 8]).Remove 0).2).dense[((Pool.init Nat 4).applyOps
            [PoolOp.add 0 7, PoolOp.add 1 8]).sparse 0]? = some L ∧
        ((((Pool.init Nat 4).applyOps
          [PoolOp.add 0 7, PoolOp.add 1 8]).Remove 0).2).sparse L.1 =
          ((Pool.init Nat 4).applyOps [PoolOp.add 0 7, PoolOp.add 1 8]).sparse 0) ∧
    (∀ f, f < ((Pool.init Nat 4).applyOps
        [PoolOp.add 0 7, PoolOp.add 1 8]).capacity → f ≠ 0 →
      ((Pool.init Nat 4).applyOps [PoolOp.add 0 7, PoolOp.add 1 8]).Has f = true →
      ((((Pool.init Nat 4).applyOps
        [PoolOp.add 0 7, PoolOp.add 1 8]).Remove 0).2).Has f = true ∧
      ((((Pool.init Nat 4).applyOps
        [PoolOp.add 0 7, PoolOp.add 1 8]).Remove 0).2).getVal f =
        ((Pool.init Nat 4).applyOps [PoolOp.add 0 7, PoolOp.add 1 8]).getVal f) :=
  remove_compaction ((Pool.init Nat 4).applyOps [PoolOp.add 0 7, PoolOp.add 1 8]) 0
    (Pool.Inv_applyOps [PoolOp.add 0 7, PoolOp.add 1 8] (Pool.init Nat 4)
      (Pool.Inv_init 4)
      ⟨⟨by decide, Or.inr (by decide)⟩, ⟨by decide, Or.inr (by decide)⟩, trivial⟩)
    (by decide) rfl

/-- Absence of the sentinel-collision ghost for entity `e` in a pool:
every dense occurrence of `e` sits exactly at index `sparse e`, and that
index is not the sentinel (so `Has e` is consistent with the dense
array). Pools that never pushed an entry at dense index `capacity - 1`
satisfy this for every entity. -/
def Pool.GoodFor (p : Pool V) (e : Nat) : Prop :=
  ∀ i, ∀ x : Nat × V, p.dense[i]? = some x → x.1 = e →
    p.sparse e = i ∧ p.sparse e ≠ p.capacity - 1

theorem Pool.Remove_not_mem [Inhabited V] (p : Pool V) (e : Nat)
    (hgood : p.GoodFor e) :
    ∀ i : Nat, ∀ x : Nat × V, ((p.Remove e).2).dense[i]? = some x → x.1 ≠ e := by
  intro i x hx hcon
  cases hhas : p.Has e with
  | false =>
    rw [Pool.Remove_snd_not_has p e hhas] at hx
    exact (hgood i x hx hcon).2 (Pool.Has_eq_false_iff.mp hhas)
  | true =>
    rw [Pool.Remove_snd_has p e hhas] at hx
    have hx' : ((p.dense.set (p.sparse e)
        (p.dense.getD (p.dense.length - 1) default)).dropLast)[i]? = some x := hx
    rw [List.getElem?_dropLast, List.length_set] at hx'
    by_cases hi : i < p.dense.length - 1
    · rw [if_pos hi, List.getElem?_set] at hx'
      by_cases hii : p.sparse e = i
      · rw [if_pos hii, if_pos (by omega)] at hx'
        have hxL : x = p.dense.getD (p.dense.length - 1) default :=
          (Option.some_inj.mp hx').symm
        have hL0 : p.dense[p.dense.length - 1]? =
            some (p.dense.getD (p.dense.length - 1) default) := by
          rw [List.getD_eq_getElem?_getD,
            List.getElem?_eq_getElem (show p.dense.length - 1 < p.dense.length
              by omega)]
          rfl
        have := (hgood (p.dense.length - 1) _ hL0 (by rw [← hxL]; exact hcon)).1
        omega
      · rw [if_neg hii] at hx'
        exact hii ((hgood i x hx' hcon).1)
    · rw [if_neg hi] at hx'
      cases hx'

theorem Registry.lookupPool_DeleteEntity [Inhabited V] (r : Registry V)
    (e k : Nat) :
    (r.DeleteEntity e).lookupPool k =
      (r.lookupPool k).map (fun p => (p.Remove e).2) := by
  unfold Registry.lookupPool Registry.DeleteEntity
  rw [show ((r.pools.map (fun kp => (kp.1, (kp.2.Remove e).2))).find?
      (fun kp => kp.1 == k)) = (r.pools.find? (fun kp => kp.1 == k)).map
      (fun kp => (kp.1, (kp.2.Remove e).2)) from List.find?_map _ _]
  cases r.pools.find? (fun kp => kp.1 == k) <;> rfl

/-- C7 fails as stated: with `maxEntities = 1`, attach a component to
entity 0 (which lands at dense index 0 = sentinel, so `Has` is false for
it), then `DeleteEntity(0)`. The per-pool `Remove` is a no-op on the
ghost, so entity 0's pair still sits in the pool's dense array after the
delete. -/
theorem deleteEntity_cascade_cex :
    0 < (Registry.init Nat 1).maxEntities ∧
    ((((Registry.init Nat 1).AddComponent 0 0 5).2.DeleteEntity 0).pools.map
      (fun kp => kp.2.dense)) = [[(0, 5)]] :=
  ⟨by decide, rfl⟩

/-- C7 (amended): cascade delete. After `DeleteEntity(e)`, the set of
pool keys is unchanged (no pool is created) and `HasComponent` for `e`
is false at every key — both unconditionally; and, provided no pool
holds a sentinel-collision ghost for `e` (each dense occurrence of `e`
is consistent with `Has`), `e`'s pair appears in no pool's dense array.
Only that last conjunct needs the proviso, as the counterexample
shows. -/
theorem deleteEntity_cascade [Inhabited V] (r : Registry V) (e : Nat)
    (he : e < r.maxEntities) :
    ((r.DeleteEntity e).pools.map Prod.fst = r.pools.map Prod.fst) ∧
    (∀ k, (r.DeleteEntity e).HasComponent k e = false) ∧
    ((∀ kp ∈ r.pools, (kp.2 : Pool V).GoodFor e) →
      ∀ kp ∈ (r.DeleteEntity e).pools, ∀ i : Nat, ∀ x : Nat × V,
        (kp.2 : Pool V).dense[i]? = some x → x.1 ≠ e) := by
  refine ⟨?_, ?_, ?_⟩
  · show (r.pools.map (fun kp => (kp.1, (kp.2.Remove e).2))).map Prod.fst
      = r.pools.map Prod.fst
    rw [List.map_map]
    rfl
  · intro k
    unfold Registry.HasComponent
    rw [Registry.lookupPool_DeleteEntity]
    cases r.lookupPool k with
    | none => rfl
    | some p =>
      simp only [Option.map_some']
      exact Pool.Remove_Has_self p e
  · intro hgood kp hkp i x hx
    have hkp' : kp ∈ r.pools.map (fun kp => (kp.1, (kp.2.Remove e).2)) := hkp
    obtain ⟨kp0, hkp0, rfl⟩ := List.mem_map.mp hkp'
    exact Pool.Remove_not_mem kp0.2 e (hgood kp0 hkp0) i x hx

/-- Witness for C7 (amended): a capacity-4 registry, one pool holding
entities 0 and 1 at dense indices 0 and 1 (no ghost), deleting entity 0. -/
theorem deleteEntity_cascade_witness :
    (((((Registry.init Nat 4).AddComponent 0 0 7).2.AddComponent 0 1 8).2.DeleteEntity
        0).pools.map Prod.fst =
      ((((Registry.init Nat 4).AddComponent 0 0 7).2.AddComponent 0 1 8).2).pools.map
        Prod.fst) ∧
    (∀ k, (((((Registry.init Nat 4).AddComponent 0 0 7).2.AddComponent 0 1
        8).2.DeleteEntity 0).HasComponent k 0) = false) ∧
    (∀ kp ∈ ((((Registry.init Nat 4).AddComponent 0 0 7).2.AddComponent 0 1
        8).2.DeleteEntity 0).pools, ∀ i : Nat, ∀ x : Nat × Nat,
      (kp.2 : Pool Nat).dense[i]? = some x → x.1 ≠ 0) := by
  have H := deleteEntity_cascade
    ((((Registry.init Nat 4).AddComponent 0 0 7).2.AddComponent 0 1 8).2) 0
    (by decide)
  refine ⟨H.1, H.2.1, H.2.2 ?_⟩
  intro kp hkp
  have : kp = (0, (((Pool.init Nat 4).Add 0 7).2.Add 1 8).2) := by
    have hp : ((((Registry.init Nat 4).AddComponent 0 0 7).2.AddComponent 0 1
        8).2).pools = [(0, (((Pool.init Nat 4).Add 0 7).2.Add 1 8).2)] := rfl
    rw [hp] at hkp
    simpa using hkp
  rw [this]
  intro i x hx hcon
  have hb := (List.getElem?_eq_some.mp hx).1
  have hlen : ((((Pool.init Nat 4).Add 0 7).2.Add 1 8).2).dense.length = 2 := rfl
  rw [hlen] at hb
  interval_cases i
  · exact ⟨rfl, by decide⟩
  · have hx1 : x = (1, 8) := by
      have h18 : ((((Pool.init Nat 4).Add 0 7).2.Add 1 8).2).dense[1]?
          = some (1, 8) := rfl
      rw [h18] at hx
      exact (Option.some_inj.mp hx).symm
    rw [hx1] at hcon
    exact absurd hcon (by decide)

theorem Pool.applyOp_capacity [Inhabited V] (p : Pool V) (op : PoolOp V) :
    (p.applyOp op).capacity = p.capacity := by
  cases op with
  | add e v =>
    show ((p.Add e v).2).capacity = p.capacity
    rw [Pool.Add]
    split <;> rfl
  | remove e => exact Pool.Remove_capacity p e

theorem Pool.dense_fst_nodup (p : Pool V) (hInv : p.Inv) :
    (p.dense.map Prod.fst).Nodup := by
  rw [List.nodup_iff_getElem?_ne_getElem?]
  intro i j hij hjl hcon
  have hjl' : j < p.dense.length := by simpa using hjl
  have hil : i < p.dense.length := by omega
  rw [List.getElem?_map, List.getElem?_map, List.getElem?_eq_getElem hil,
    List.getElem?_eq_getElem hjl'] at hcon
  have hfst : (p.dense[i]).1 = (p.dense[j]).1 := by simpa using hcon
  have hi := hInv.2 i (p.dense[i]) (List.getElem?_eq_getElem hil)
  have hj := hInv.2 j (p.dense[j]) (List.getElem?_eq_getElem hjl')
  rw [hfst, hj] at hi
  omega

theorem Pool.length_le_of_bound (p : Pool V) (hInv : p.Inv)
    (hbd : ∀ i : Nat, ∀ x : Nat × V, p.dense[i]? = some x →
      x.1 < p.capacity - 1) :
    p.dense.length ≤ p.capacity - 1 := by
  have hnd := Pool.dense_fst_nodup p hInv
  have hsub : (p.dense.map Prod.fst).toFinset ⊆ Finset.range (p.capacity - 1) := by
    intro y hy
    rw [List.mem_toFinset] at hy
    obtain ⟨x, hx, rfl⟩ := List.mem_map.mp hy
    obtain ⟨i, hi⟩ := List.mem_iff_getElem?.mp hx
    rw [Finset.mem_range]
    exact hbd i x hi
  have hc := Finset.card_le_card hsub
  rw [List.toFinset_card_of_nodup hnd, Finset.card_range, List.length_map] at hc
  exact hc

theorem Pool.has_of_full (p : Pool V) (hInv : p.Inv)
    (hbd : ∀ i : Nat, ∀ x : Nat × V, p.dense[i]? = some x →
      x.1 < p.capacity - 1)
    (hfull : p.dense.length = p.capacity - 1) (e : Nat)
    (he : e < p.capacity - 1) : p.Has e = true := by
  have hnd := Pool.dense_fst_nodup p hInv
  have hsub : (p.dense.map Prod.fst).toFinset ⊆ Finset.range (p.capacity - 1) := by
    intro y hy
    rw [List.mem_toFinset] at hy
    obtain ⟨x, hx, rfl⟩ := List.mem_map.mp hy
    obtain ⟨i, hi⟩ := List.mem_iff_getElem?.mp hx
    rw [Finset.mem_range]
    exact hbd i x hi
  have heq : (p.dense.map Prod.fst).toFinset = Finset.range (p.capacity - 1) := by
    refine Finset.eq_of_subset_of_card_le hsub ?_
    rw [List.toFinset_card_of_nodup hnd, Finset.card_range, List.length_map,
      hfull]
  have hmem : e ∈ p.dense.map Prod.fst := by
    rw [← List.mem_toFinset, heq, Finset.mem_range]
    exact he
  obtain ⟨x, hx, hxe⟩ := List.mem_map.mp hmem
  obtain ⟨i, hi⟩ := List.mem_iff_getElem?.mp hx
  have hsp := hInv.2 i x hi
  have hlt : i < p.dense.length := (List.getElem?_eq_some.mp hi).1
  rw [Pool.Has_eq_true_iff, ← hxe, hsp]
  omega

/-- The per-call restriction the registry enforces on IDs it issues:
every inserted entity ID stays below `capacity - 1` (registry-issued IDs
never reach `maxEntities - 1`), every removed ID is in range. -/
def PoolOp.OK {V : Type} (c : Nat) : PoolOp V → Prop
  | .add e _ => e < c - 1
  | .remove e => e < c

theorem Pool.trace_bound [Inhabited V] (trace : List (PoolOp V)) :
    ∀ p : Pool V, p.Inv →
      (∀ i : Nat, ∀ x : Nat × V, p.dense[i]? = some x →
        x.1 < p.capacity - 1) →
      (∀ op ∈ trace, PoolOp.OK p.capacity op) →
      ((p.applyOps trace).Inv ∧
       (∀ i : Nat, ∀ x : Nat × V, (p.applyOps trace).dense[i]? = some x →
         x.1 < p.capacity - 1) ∧
       (p.applyOps trace).dense.length ≤ p.capacity - 1) := by
  induction trace with
  | nil =>
    intro p hInv hbd _
    exact ⟨hInv, hbd, Pool.length_le_of_bound p hInv hbd⟩
  | cons op t ih =>
    intro p hInv hbd hok
    have hok0 : PoolOp.OK p.capacity op := hok op (List.mem_cons_self op t)
    have hokt : ∀ op' ∈ t, PoolOp.OK ((p.applyOp op).capacity) op' := by
      rw [Pool.applyOp_capacity]
      intro op' hop'
      exact hok op' (List.mem_cons_of_mem op hop')
    have hstep : (p.applyOp op).Inv ∧
        (∀ i : Nat, ∀ x : Nat × V, (p.applyOp op).dense[i]? = some x →
          x.1 < p.capacity - 1) := by
      cases op with
      | add e v =>
        have he2 : e < p.capacity - 1 := hok0
        cases hhase : p.Has e with
        | true =>
          have hunch : (p.applyOp (PoolOp.add e v)) = p := by
            show (p.Add e v).2 = p
            rw [Pool.Add, if_pos hhase]
          rw [hunch]
          exact ⟨hInv, hbd⟩
        | false =>
          have hlenle := Pool.length_le_of_bound p hInv hbd
          have hlenlt : p.dense.length < p.capacity - 1 := by
            rcases Nat.lt_or_ge p.dense.length (p.capacity - 1) with h | h
            · exact h
            · have hfull : p.dense.length = p.capacity - 1 := by omega
              have := Pool.has_of_full p hInv hbd hfull e he2
              rw [hhase] at this
              cases this
          refine ⟨Pool.Inv_add p e v hInv (Or.inr (by omega)), ?_⟩
          intro i x hx
          show x.1 < p.capacity - 1
          have hx' : ((p.Add e v).2).dense[i]? = some x := hx
          rw [Pool.Add_snd_not_has p e v hhase] at hx'
          have hx2 : (p.dense ++ [(e, v)])[i]? = some x := hx'
          have hib : i < p.dense.length + 1 := by
            have := (List.getElem?_eq_some.mp hx2).1
            simpa [List.length_append] using this
          by_cases hi : i < p.dense.length
          · rw [List.getElem?_append, if_pos hi] at hx2
            exact hbd i x hx2
          · have : i = p.dense.length := by omega
            rw [this, List.getElem?_concat_length] at hx2
            have : x = (e, v) := (Option.some_inj.mp hx2).symm
            rw [this]
            exact he2
      | remove e =>
        have he2 : e < p.capacity := hok0
        refine ⟨Pool.Inv_remove p e hInv he2, ?_⟩
        cases hhase : p.Has e with
        | false =>
          intro i x hx
          have hx' : ((p.Remove e).2).dense[i]? = some x := hx
          rw [Pool.Remove_snd_not_has p e hhase] at hx'
          exact hbd i x hx'
        | true =>
          have hse : p.sparse e ≠ p.capacity - 1 := Pool.Has_eq_true_iff.mp hhase
          obtain ⟨hidx, _⟩ := hInv.1 e he2 hse
          have hL0 : p.dense[p.dense.length - 1]? =
              some (p.dense.getD (p.dense.length - 1) default) := by
            rw [List.getD_eq_getElem?_getD,
              List.getElem?_eq_getElem (show p.dense.length - 1 < p.dense.length
                by omega)]
            rfl
          intro i x hx
          have hx' : ((p.Remove e).2).dense[i]? = some x := hx
          rw [Pool.Remove_dense_getElem p e hhase hidx i] at hx'
          by_cases hi : i < p.dense.length - 1
          · rw [if_pos hi] at hx'
            by_cases hii : p.sparse e = i
            · rw [if_pos hii] at hx'
              have hxL : x = p.dense.getD (p.dense.length - 1) default :=
                (Option.some_inj.mp hx').symm
              rw [hxL]
              exact hbd (p.dense.length - 1) _ hL0
            · rw [if_neg hii] at hx'
              exact hbd i x hx'
          · rw [if_neg hi] at hx'
            cases hx'
    have hres := ih (p.applyOp op) hstep.1
      (by rw [Pool.applyOp_capacity]; exact hstep.2) hokt
    rw [Pool.applyOp_capacity] at hres
    exact hres

/-- A registry lifecycle call: `CreateEntity` or `DeleteEntity e`. -/
inductive RegOp where
  | create : RegOp
  | delete : Nat → RegOp

theorem getLastD_mem_of_ne_nil (l : List Nat) (h : l ≠ []) :
    l.getLastD 0 ∈ l := by
  rw [List.getLastD_eq_getLast?, List.getLast?_eq_getLast l h]
  show l.getLast h ∈ l
  exact List.getLast_mem h

/-- Run a sequence of lifecycle calls, collecting every ID returned by
`CreateEntity` and tracking the list of live IDs. The run is `none` when
`CreateEntity` hits its capacity assertion, when `DeleteEntity` hits its
range assertion, or when a delete targets a non-live ID — the validity
condition of the amended claim (the code itself does not check liveness;
that unchecked case is exactly the counterexample). -/
def Registry.runOps {V : Type} [Inhabited V] (r : Registry V) (live : List Nat) :
    List RegOp → Option (Registry V × List Nat × List Nat)
  | [] => some (r, live, [])
  | RegOp.create :: t =>
    match r.CreateEntity with
    | some pr => (pr.2.runOps (pr.1 :: live) t).map
        (fun res => (res.1, res.2.1, pr.1 :: res.2.2))
    | none => none
  | RegOp.delete e :: t =>
    if e < r.maxEntities ∧ e ∈ live then
      (r.DeleteEntity e).runOps (live.erase e) t
    else none

theorem Registry.runOps_bound [Inhabited V] (ops : List RegOp) :
    ∀ (r : Registry V) (live : List Nat),
      (∀ x ∈ r.freeEntities, x < r.maxEntities - 1) →
      (∀ x ∈ live, x < r.maxEntities - 1) →
      ∀ r' live' created, r.runOps live ops = some (r', live', created) →
        ∀ id ∈ created, id < r.maxEntities - 1 := by
  induction ops with
  | nil =>
    intro r live hf hl r' live' created hrun id hid
    have h0 : some ((r, live, ([] : List Nat)) :
        Registry V × List Nat × List Nat) = some (r', live', created) := hrun
    have h1 := Option.some_inj.mp h0
    have h2 : ([] : List Nat) = created :=
      congrArg (fun t : Registry V × List Nat × List Nat => t.2.2) h1
    rw [← h2] at hid
    cases hid
  | cons op t ih =>
    cases op with
    | create =>
      intro r live hf hl r' live' created hrun id hid
      cases hc : r.CreateEntity with
      | none =>
        rw [Registry.runOps, hc] at hrun
        cases hrun
      | some pr =>
        have hprops : pr.1 < r.maxEntities - 1 ∧
            pr.2.maxEntities = r.maxEntities ∧
            (∀ x ∈ pr.2.freeEntities, x < r.maxEntities - 1) := by
          unfold Registry.CreateEntity at hc
          by_cases hemp : r.freeEntities.isEmpty
          · rw [if_pos hemp] at hc
            by_cases hlt : r.nextEntity + 1 < r.maxEntities
            · rw [if_pos hlt] at hc
              rw [← Option.some_inj.mp hc]
              exact ⟨by omega, rfl, fun x hx => hf x hx⟩
            · rw [if_neg hlt] at hc
              cases hc
          · rw [if_neg hemp] at hc
            have hne : r.freeEntities ≠ [] := by
              intro h0
              exact hemp (by rw [h0]; rfl)
            rw [← Option.some_inj.mp hc]
            exact ⟨hf _ (getLastD_mem_of_ne_nil _ hne), rfl,
              fun x hx => hf x (List.dropLast_subset _ hx)⟩
        rw [Registry.runOps, hc] at hrun
        have hrun2 : (pr.2.runOps (pr.1 :: live) t).map
            (fun res => (res.1, res.2.1, pr.1 :: res.2.2)) =
            some (r', live', created) := hrun
        obtain ⟨res, hres, heq⟩ := Option.map_eq_some'.mp hrun2
        have hcreated : created = pr.1 :: res.2.2 :=
          (congrArg (fun t : Registry V × List Nat × List Nat => t.2.2) heq).symm
        rw [hcreated] at hid
        rcases List.mem_cons.mp hid with rfl | hid2
        · exact hprops.1
        · have hbound := ih pr.2 (pr.1 :: live)
            (by rw [hprops.2.1]; exact hprops.2.2)
            (by
              rw [hprops.2.1]
              intro x hx
              rcases List.mem_cons.mp hx with rfl | hx2
              · exact hprops.1
              · exact hl x hx2)
            res.1 res.2.1 res.2.2 hres id hid2
          rw [hprops.2.1] at hbound
          exact hbound
    | delete e =>
      intro r live hf hl r' live' created hrun id hid
      rw [Registry.runOps] at hrun
      by_cases hcond : e < r.maxEntities ∧ e ∈ live
      · rw [if_pos hcond] at hrun
        refine ih (r.DeleteEntity e) (live.erase e) ?_ ?_ r' live' created
          hrun id hid
        · intro x hx
          show x < r.maxEntities - 1
          rcases List.mem_append.mp hx with h | h
          · exact hf x h
          · have hx2 : x = e := by simpa using h
            rw [hx2]
            exact hl e hcond.2
        · intro x hx
          exact hl x (List.erase_subset e live hx)
      · rw [if_neg hcond] at hrun
        cases hrun

/-- C10 fails as stated: with `maxEntities = 2`, the call
`DeleteEntity(1)` passes its range assertion (`1 < 2`) even though ID 1
was never issued (double/invalid deletion is unguarded), and the next
`CreateEntity` then returns 1 = `maxEntities - 1` — an ID the claim says
is never issued. -/
theorem issued_id_bound_cex :
    1 < (Registry.init Nat 2).maxEntities ∧
    ((((Registry.init Nat 2).DeleteEntity 1).CreateEntity).map Prod.fst
      = some 1) ∧
    ¬ (1 < (Registry.init Nat 2).maxEntities - 1) :=
  ⟨by decide, rfl, by decide⟩

/-- C10 (amended): (registry half) along any lifecycle trace in which
every `DeleteEntity` targets a currently *live* ID, every ID returned by
`CreateEntity` is strictly below `maxEntities - 1` — the fresh-ID
assertion enforces it for fresh IDs and valid recycling preserves it;
(pool half) a pool whose `Add` calls all use entity IDs below
`capacity - 1` (as registry-issued IDs are) keeps its dense array at most
`capacity - 1` long, so no entry ever sits at dense index `capacity - 1`
and the sentinel collision cannot be triggered. The liveness proviso is
forced by the counterexample: deleting the never-issued ID
`maxEntities - 1` recycles it. -/
theorem issued_id_bound (V : Type) [Inhabited V] :
    (∀ (maxE : Nat) (ops : List RegOp) (r' : Registry V)
        (live' created : List Nat),
      (Registry.init V maxE).runOps [] ops = some (r', live', created) →
      ∀ id ∈ created, id < maxE - 1) ∧
    (∀ (c : Nat) (trace : List (PoolOp V)),
      (∀ op ∈ trace, PoolOp.OK c op) →
      ((Pool.init V c).applyOps trace).dense.length ≤ c - 1) := by
  constructor
  · intro maxE ops r' live' created hrun
    exact Registry.runOps_bound ops (Registry.init V maxE) []
      (by intro x hx; cases hx) (by intro x hx; cases hx)
      r' live' created hrun
  · intro c trace hok
    have hbd : ∀ i : Nat, ∀ x : Nat × V,
        (Pool.init V c).dense[i]? = some x → x.1 < (Pool.init V c).capacity - 1 := by
      intro i x hx
      cases hx
    exact (Pool.trace_bound trace (Pool.init V c) (Pool.Inv_init c) hbd hok).2.2

/-- Witness for C10 (amended): one create on a capacity-3 registry
returns ID 0 < 2, and a two-add trace on a capacity-4 pool keeps the
dense array within 3 entries. -/
theorem issued_id_bound_witness :
    (∀ id ∈ ([0] : List Nat), id < 3 - 1) ∧
    ((Pool.init Nat 4).applyOps
      [PoolOp.add 0 7, PoolOp.add 1 8]).dense.length ≤ 4 - 1 := by
  constructor
  · exact (issued_id_bound Nat).1 3 [RegOp.create]
      { maxEntities := 3, nextEntity := 1, freeEntities := [], pools := [] }
      [0] [0] rfl
  · refine (issued_id_bound Nat).2 4 [PoolOp.add 0 7, PoolOp.add 1 8] ?_
    intro op hop
    simp only [List.mem_cons, List.not_mem_nil, or_false] at hop
    rcases hop with rfl | rfl
    · exact (by decide : (0:Nat) < 4 - 1)
    · exact (by decide : (1:Nat) < 4 - 1)

/-- C9: LIFO recycling. Immediately after `DeleteEntity(e)`, the next
`CreateEntity` succeeds and returns exactly `e` (the most recently freed
ID), and the recycled entity holds no component: `HasComponent` is false
for it at every component-type key. -/
theorem delete_create_lifo [Inhabited V] (r : Registry V) (e : Nat)
    (he : e < r.maxEntities) :
    ∃ r', (r.DeleteEntity e).CreateEntity = some (e, r') ∧
      ∀ k, r'.HasComponent k e = false := by
  refine ⟨{ r.DeleteEntity e with freeEntities := r.freeEntities }, ?_, ?_⟩
  · unfold Registry.CreateEntity
    simp [Registry.DeleteEntity]
  · intro k
    unfold Registry.HasComponent Registry.lookupPool
    simp only [Registry.DeleteEntity, List.find?_map]
    cases hfind : r.pools.find? ((fun kp => kp.1 == k) ∘
        fun kp => (kp.1, (kp.2.Remove e).2)) with
    | none => simp
    | some kp0 =>
      simp only [Option.map_map, Option.map_some']
      exact Pool.Remove_Has_self kp0.2 e

/-- Witness for C9: the concrete scenario of the spec — delete entity 0
(previously created) and the next `CreateEntity` returns 0, with no
component attached at any key. -/
theorem delete_create_lifo_witness :
    0 < (Registry.init Nat 4).maxEntities ∧
    ∃ r', (((Registry.init Nat 4).DeleteEntity 0).CreateEntity) = some (0, r') ∧
      ∀ k, r'.HasComponent k 0 = false :=
  ⟨by decide, delete_create_lifo (Registry.init Nat 4) 0 (by decide)⟩

end PECS
